import Mathlib

/-!
Verification development for the `flate3` zlib/DEFLATE decompressor.

The Rust sources are shallowly embedded as executable Lean definitions:
machine integers become `Nat` (with explicit `% 2^w` where the Rust types
could wrap), `io::Result` becomes `Except RErr`, and Rust panics (failed
`assert!`, out-of-bounds indexing, `usize` underflow in checked builds)
become the distinguished error `RErr.panicked`.  Byte sources (`R: Read`
instantiated with `Cursor<Vec<u8>>` throughout the crate's tests) become
`List Nat` of byte values.
-/

namespace Flate3

/-- Outcome of a fallible Rust operation: either an `io::Error` of kind
`InvalidInput` carrying its message, or a panic (assertion failure,
out-of-bounds index, or arithmetic underflow in a checked build). -/
inductive RErr where
  | invalidInput (msg : String)
  | panicked
  deriving Repr, DecidableEq

/-- `io::Result<A>` of the Rust code. -/
abbrev RResult (α : Type) : Type := Except RErr α

/-! ## `src/bit.rs` : the bit reader -/

/-- State of `BitRead<R>` from `src/bit.rs`: the wrapped byte source
(`inner`, a cursor over bytes, modelled as the list of bytes not yet
consumed), the cached bits `data : u16` and the count `bits` of valid
bits in the cache. -/
structure BitRead where
  input : List Nat
  data : Nat
  bits : Nat
  deriving Repr, DecidableEq

/-- `BitRead::new`. -/
def BitRead.new (inner : List Nat) : BitRead := ⟨inner, 0, 0⟩

/-- `BitRead::read_from_cache`: `assert!(bits <= self.bits)`, then take the
low `n` bits of `data` and shift them out. -/
def BitRead.read_from_cache (s : BitRead) (n : Nat) : RResult (Nat × BitRead) :=
  if n ≤ s.bits then
    .ok (s.data &&& ((1 <<< n) - 1), ⟨s.input, s.data >>> n, s.bits - n⟩)
  else
    .error .panicked

/-- `BitRead::read`: `assert!(bits <= 8)`; if fewer than `n` bits are cached,
read one byte from the source (zero-length read is `InvalidInput`), shift it
in above the cached bits (`data |= byte << bits`, a `u16` operation, hence
the `% 65536`), then serve the request from the cache. -/
def BitRead.read (s : BitRead) (n : Nat) : RResult (Nat × BitRead) :=
  if n ≤ 8 then
    if s.bits < n then
      match s.input with
      | [] => .error (.invalidInput "Unexpected EOF in bits stream")
      | b :: rest =>
        if s.bits ≤ 8 then
          BitRead.read_from_cache ⟨rest, (s.data ||| (b <<< s.bits)) % 65536, s.bits + 8⟩ n
        else
          .error .panicked
    else
      BitRead.read_from_cache s n
  else
    .error .panicked

/-- `BitRead::byte_align_unwrap`: discard the residual cached bits and
return the inner byte source. -/
def BitRead.byte_align_unwrap (s : BitRead) : List Nat := s.input

/-- The low `m` bits of `d`, least significant first. -/
def toBits : Nat → Nat → List Nat
  | 0, _ => []
  | m + 1, d => (d % 2) :: toBits m (d / 2)

/-- Value of a little-endian bit list: bit `i` of the result is the `i`-th
list element. -/
def ofBits : List Nat → Nat
  | [] => 0
  | b :: rest => b + 2 * ofBits rest

/-- The stream of bits a `BitRead` will deliver, in consumption order:
the cached bits first (low end of `data` first), then each source byte
least-significant bit first. -/
def bitSeq (s : BitRead) : List Nat :=
  toBits s.bits s.data ++ s.input.foldr (fun b acc => toBits 8 b ++ acc) []

/-! ## `src/huffman.rs` : canonical prefix-code tables -/

/-- `HuffmanTable<S>`: `elements` is indexed by the numeric code value and
holds `(code length, symbol)` for defined codes; `min_bits` is the shortest
defined length. -/
structure HuffmanTable (S : Type) where
  elements : List (Option (Nat × S))
  min_bits : Nat
  deriving Repr

/-- The tally loop of `from_lengths`: `bl[len as usize] += 1` over a fixed
`[i32; 10]` array, so a length of 10 or more is an out-of-bounds panic. -/
def tally {S : Type} : List (S × Nat) → List Nat → Option (List Nat)
  | [], bl => some bl
  | (_, len) :: rest, bl =>
    if len < 10 then tally rest (bl.set len (bl.getD len 0 + 1)) else none

/-- `Iterator::position`: index of the first element satisfying `p`. -/
def position (p : Nat → Bool) : List Nat → Option Nat
  | [] => none
  | x :: rest => if p x then some 0 else (position p rest).map (· + 1)

/-- The `next_code` loop of `from_lengths`:
`code = (code + bitlen_count[bit - 1]) << 1; next_code[bit] = code` for
`bit` in `1..10`, starting from `next_code[0] = 0`. -/
def buildNextCode (bl : List Nat) : List Nat :=
  ((List.range' 1 9).foldl
    (fun acc bit =>
      let code := (acc.1 + bl.getD (bit - 1) 0) <<< 1
      (code, acc.2 ++ [code]))
    ((0 : Nat), [0])).2

/-- The assignment loop of `from_lengths`: `assert!(len != 0)`, take the next
code of this length, bump `next_code[len]`, grow `elements` with `None`
entries so that index `code` exists (`assert!(elements.len() > code)`), and
store `(len, symbol)` there. -/
def assign {S : Type} : List Nat → List (Option (Nat × S)) → List (S × Nat) →
    Option (List (Option (Nat × S)))
  | _, elements, [] => some elements
  | next_code, elements, (symbol, len) :: rest =>
    if len = 0 then none
    else if len < next_code.length then
      let code := next_code.getD len 0
      let next_code2 := next_code.set len (code + 1)
      let elements2 :=
        if elements.length ≤ code then
          elements ++ List.replicate (code + 1 - elements.length) none
        else elements
      if code < elements2.length then
        assign next_code2 (elements2.set code (some (len, symbol))) rest
      else none
    else none

/-- `HuffmanTable::from_lengths`: `assert!(!lengths.is_empty())`, tally the
lengths, find `min_bits` (`panic!()` if no nonzero length,
`assert!(min_bits >= 1)`), compute the canonical first codes, and assign a
code to every `(symbol, length)` pair in input order.  `none` models a
panic. -/
def HuffmanTable.from_lengths {S : Type} (lengths : List (S × Nat)) :
    Option (HuffmanTable S) :=
  if lengths.isEmpty then none
  else
    match tally lengths (List.replicate 10 0) with
    | none => none
    | some bl =>
      match position (fun e => e != 0) bl with
      | none => none
      | some min_bits =>
        if 1 ≤ min_bits then
          match assign (buildNextCode bl) [] lengths with
          | none => none
          | some elements => some ⟨elements, min_bits⟩
        else none

/-- The initial accumulation in `HuffmanTable::decode`: read `k` single bits,
shifting each into the bottom of `buffer` (a `u16`). -/
def readAccMSB (input : BitRead) (buffer : Nat) : Nat → RResult (Nat × BitRead)
  | 0 => .ok (buffer, input)
  | k + 1 =>
    match input.read 1 with
    | .error e => .error e
    | .ok (bit, input') => readAccMSB input' (((buffer <<< 1) ||| bit) % 65536) k

/-- The matching loop of `HuffmanTable::decode`: fail with `Bad huffman data`
once the accumulated width can no longer index the table, otherwise look the
accumulator up, emit the symbol when its stored length equals the current
width, and shift in one more bit otherwise.  (The lookup never goes out of
bounds: `buffer < 2^nb <= elements.len()` whenever the guard passes, so the
default arm of `getD` is only the stored-`None` case.)  The fuel keeps the
recursion structural for Lean: the width `nb` grows by one per iteration and
the guard stops it at `log2 len + 1`, so the `elements.length + 2` supplied
by `decode` can never run out. -/
def HuffmanTable.decodeLoop {S : Type} (t : HuffmanTable S) (input : BitRead)
    (buffer nb : Nat) : Nat → RResult (S × BitRead)
  | 0 => .error .panicked
  | fuel + 1 =>
    if t.elements.length < 1 <<< nb then
      .error (.invalidInput "Bad huffman data")
    else
      match t.elements.getD buffer none with
      | some (l, sym) =>
        if l = nb then .ok (sym, input)
        else
          match input.read 1 with
          | .error e => .error e
          | .ok (bit, input') =>
            t.decodeLoop input' (((buffer <<< 1) ||| bit) % 65536) (nb + 1) fuel
      | none =>
        match input.read 1 with
        | .error e => .error e
        | .ok (bit, input') =>
          t.decodeLoop input' (((buffer <<< 1) ||| bit) % 65536) (nb + 1) fuel

/-- `HuffmanTable::decode`: accumulate `min_bits` bits, then loop. -/
def HuffmanTable.decode {S : Type} (t : HuffmanTable S) (input : BitRead) :
    RResult (S × BitRead) :=
  match readAccMSB input 0 t.min_bits with
  | .error e => .error e
  | .ok (buffer, input') => t.decodeLoop input' buffer t.min_bits (t.elements.length + 2)

/-! ## `src/compressed_block_reader.rs` -/

/-- `LitLenSymbol`: result of decoding one literal/length symbol. -/
inductive LitLenSymbol where
  | byte (val : Nat)
  | eob
  | pointer (ptr : Nat)
  deriving Repr, DecidableEq

/-- `LENGTHS`: base copy length per length code (`[u16; 29]`). -/
def LENGTHS : List Nat :=
  [3, 4, 5, 6, 7, 8, 9, 10, 11] ++
    [13, 15, 17, 19, 23, 27, 31, 35, 43, 51] ++
    [59, 67, 83, 99, 115, 131, 163, 195, 227, 258]

/-- `EXTRA_LENGTHS`: extra bits per length code (`[u8; 29]`). -/
def EXTRA_LENGTHS : List Nat :=
  [0, 0, 0, 0, 0, 0, 0] ++
    [0, 1, 1, 1, 1, 2, 2, 2, 2, 3] ++
    [3, 3, 3, 4, 4, 4, 4, 5, 5, 5] ++
    [5, 0]

/-- `DISTANCES`: base distance per distance code (`[u16; 30]`). -/
def DISTANCES : List Nat :=
  [1, 2, 3, 4, 5, 7, 9] ++
    [13, 17, 25, 33, 49, 65, 97, 129, 193, 257] ++
    [385, 513, 769, 1025, 1537, 2049, 3073, 4097, 6145, 8193] ++
    [12289, 16385, 24577]

/-- `EXTRA_DISTANCES`: extra bits per distance code (`[u8; 30]`). -/
def EXTRA_DISTANCES : List Nat :=
  [0, 0, 0, 0, 1, 1, 2] ++
    [2, 3, 3, 4, 4, 5, 5, 6, 6, 7] ++
    [7, 8, 8, 9, 9, 10, 10, 11, 11, 12] ++
    [12, 13, 13]

/-- `read_behind`: build the iterator
`chain(previous_cache, immediate_cache).skip(total - distance).take(length)`,
copy it into `dest` (whose free space is `dest_len`), and return the bytes
written together with the data left over after the zip.  The `skip` argument
is computed by `usize` subtraction, so `distance > total` is an arithmetic
underflow: a panic in a checked build (in release the skip wraps and the
copy is empty).  When the destination fills up while the iterator still has
items, Rust's `Zip` has already consumed (and so loses) one extra item
before `collect` sees the rest. -/
def read_behind (length distance : Nat) (immediate_cache previous_cache : List Nat)
    (dest_len : Nat) : RResult (List Nat × List Nat) :=
  let total := previous_cache.length + immediate_cache.length
  if distance ≤ total then
    let taken := ((previous_cache ++ immediate_cache).drop (total - distance)).take length
    if taken.length ≤ dest_len then
      .ok (taken, [])
    else
      .ok (taken.take dest_len, taken.drop (dest_len + 1))
  else
    .error .panicked

/-- The symbol mapping `0..=255 => Byte, 256 => Eof, n => Pointer(n - 257)`
used both by the fixed tables and by `read_dynamic_tables`. -/
def litLenMapSym (n : Nat) : LitLenSymbol :=
  if n ≤ 255 then .byte n
  else if n = 256 then .eob
  else .pointer (n - 257)

/-- `CompressedBlockReader`: bit reader plus the two prefix-code tables and
the end-of-block flag. -/
structure CompressedBlockReader where
  data : BitRead
  eof : Bool
  lit_len_table : HuffmanTable LitLenSymbol
  dist_table : HuffmanTable Nat

/-- `CompressedBlockReader::from_fixed_tables` (RFC 1951 §3.2.6 lengths). -/
def from_fixed_tables (inner : BitRead) : Option CompressedBlockReader :=
  let lit :=
    HuffmanTable.from_lengths ((List.range 288).map (fun i =>
      (litLenMapSym i,
        if i ≤ 143 then 8 else if i ≤ 255 then 9 else if i ≤ 279 then 7 else 8)))
  let dist := HuffmanTable.from_lengths ((List.range 32).map (fun v => (v, 5)))
  match lit, dist with
  | some l, some d => some ⟨inner, false, l, d⟩
  | _, _ => none

/-- The body of the `ReadContext::read` loop.  Decode one lit/len symbol and
act on it; `written` is the prefix of `buf` already produced in this call
(the `src` half of `buf.split_at_mut(written)`), `data_cache` the decoder's
persisted history and `buf_len` the caller's buffer size.  The fuel only
bounds the recursion for Lean: every non-returning iteration strictly grows
`written` (a literal adds one byte, a back-reference at least one), so with
fuel `buf_len + 1` the fuel can never run out before the function returns. -/
def readContextLoop (r : CompressedBlockReader) (data_cache : List Nat)
    (buf_len : Nat) (written : List Nat) : Nat → RResult (List Nat × CompressedBlockReader)
  | 0 => .error .panicked
  | fuel + 1 =>
    if written.length = buf_len then .ok (written, r)
    else
      match r.lit_len_table.decode r.data with
      | .error e => .error e
      | .ok (sym, s1) =>
        let r1 : CompressedBlockReader := ⟨s1, r.eof, r.lit_len_table, r.dist_table⟩
        match sym with
        | .byte v => readContextLoop r1 data_cache buf_len (written ++ [v]) fuel
        | .eob => .ok (written, ⟨s1, true, r.lit_len_table, r.dist_table⟩)
        | .pointer p =>
          match LENGTHS.get? p, EXTRA_LENGTHS.get? p with
          | some lbase, some lextra =>
            (match r1.data.read lextra with
             | .error e => .error e
             | .ok (ev, s2) =>
               let length := lbase + ev
               match r1.dist_table.decode s2 with
               | .error e => .error e
               | .ok (dsym, s3) =>
                 match DISTANCES.get? dsym, EXTRA_DISTANCES.get? dsym with
                 | some dbase, some dextra =>
                   (match s3.read dextra with
                    | .error e => .error e
                    | .ok (ev2, s4) =>
                      let distance := dbase + ev2
                      let r2 : CompressedBlockReader :=
                        ⟨s4, r.eof, r.lit_len_table, r.dist_table⟩
                      match read_behind length distance written data_cache
                          (buf_len - written.length) with
                      | .error e => .error e
                      | .ok (nb, remaining) =>
                        if remaining = [] then
                          readContextLoop r2 data_cache buf_len (written ++ nb) fuel
                        else .error .panicked)
                 | _, _ => .error .panicked
              )
          | _, _ => .error .panicked

/-- `<ReadContext as Read>::read`: immediately 0 bytes when `eof` is already
set, otherwise run the decoding loop on an empty `written` prefix. -/
def readContextRead (r : CompressedBlockReader) (data_cache : List Nat)
    (buf_len : Nat) : RResult (List Nat × CompressedBlockReader) :=
  if r.eof then .ok ([], r)
  else readContextLoop r data_cache buf_len [] (buf_len + 1)

/-- `DecodingCommand` of `read_dynamic_tables`. -/
inductive DecodingCommand where
  | codeLength (c : Nat)
  | repeatPrevious
  | repeatZeroSmall
  | repeatZeroLarge
  deriving Repr, DecidableEq

/-- The fixed permutation in which the meta code lengths are stored. -/
def CODE_ORDER : List Nat :=
  [16, 17, 18, 0, 8, 7, 9, 6, 10, 5, 11, 4, 12, 3, 13, 2, 14, 1, 15]

/-- The loop filling `decoding_codes`: read `hclen` 3-bit lengths, storing
them at the `CODE_ORDER` positions of the 19-slot vector (`zip` stops at the
shorter of the two iterators). -/
def readMetaCodesLoop (s : BitRead) (codes : List Nat) :
    List Nat → Nat → RResult (List Nat × BitRead)
  | _, 0 => .ok (codes, s)
  | [], _ + 1 => .ok (codes, s)
  | idx :: rest, k + 1 =>
    match s.read 3 with
    | .error e => .error e
    | .ok (v, s') => readMetaCodesLoop s' (codes.set idx v) rest k

/-- The 19 `(DecodingCommand, length)` pairs passed to `from_lengths` for
the meta table, in the order the source lists them. -/
def metaPairs (codes : List Nat) : List (DecodingCommand × Nat) :=
  [(.codeLength 0, codes.getD 0 0), (.codeLength 1, codes.getD 1 0),
   (.codeLength 2, codes.getD 2 0), (.codeLength 3, codes.getD 3 0),
   (.codeLength 4, codes.getD 4 0), (.codeLength 5, codes.getD 5 0),
   (.codeLength 6, codes.getD 6 0), (.codeLength 7, codes.getD 7 0),
   (.codeLength 8, codes.getD 8 0), (.codeLength 9, codes.getD 9 0),
   (.codeLength 10, codes.getD 10 0), (.codeLength 11, codes.getD 11 0),
   (.codeLength 12, codes.getD 12 0), (.codeLength 13, codes.getD 13 0),
   (.codeLength 14, codes.getD 14 0), (.codeLength 15, codes.getD 15 0),
   (.repeatPrevious, codes.getD 16 0), (.repeatZeroSmall, codes.getD 17 0),
   (.repeatZeroLarge, codes.getD 18 0)]

/-- Header part of `read_dynamic_tables`: `HLIT = read(5) + 257`,
`HDIST = read(5) + 1`, `HCLEN = read(4) + 4`, the `HCLEN` meta code lengths,
and the meta prefix table built from the non-zero ones. -/
def readDynamicHeader (inner : BitRead) :
    RResult ((Nat × Nat × HuffmanTable DecodingCommand) × BitRead) :=
  match inner.read 5 with
  | .error e => .error e
  | .ok (h5, s1) =>
    match s1.read 5 with
    | .error e => .error e
    | .ok (d5, s2) =>
      match s2.read 4 with
      | .error e => .error e
      | .ok (c4, s3) =>
        match readMetaCodesLoop s3 (List.replicate 19 0) CODE_ORDER (c4 + 4) with
        | .error e => .error e
        | .ok (codes, s4) =>
          match HuffmanTable.from_lengths ((metaPairs codes).filter (fun p => p.2 != 0)) with
          | none => .error .panicked
          | some tbl => .ok ((h5 + 257, d5 + 1, tbl), s4)

/-- The body of the `decode!` macro: run `count` iterations, each decoding
one `DecodingCommand` via the meta table and pushing the lengths it stands
for; `code` is the last explicitly pushed length (`RepeatPrevious` with no
previous length is `InvalidInput`). -/
def decodeTableLoop (tbl : HuffmanTable DecodingCommand) (inner : BitRead)
    (code : Option Nat) (result : List Nat) : Nat → RResult (List Nat × BitRead)
  | 0 => .ok (result, inner)
  | count + 1 =>
    match tbl.decode inner with
    | .error e => .error e
    | .ok (cmd, s1) =>
      match cmd with
      | .codeLength c => decodeTableLoop tbl s1 (some c) (result ++ [c]) count
      | .repeatPrevious =>
        match code with
        | none => .error (.invalidInput "Cannot repeat the previous code length as there is none")
        | some c =>
          match s1.read 2 with
          | .error e => .error e
          | .ok (v, s2) => decodeTableLoop tbl s2 code (result ++ List.replicate (3 + v) c) count
      | .repeatZeroSmall =>
        match s1.read 3 with
        | .error e => .error e
        | .ok (v, s2) => decodeTableLoop tbl s2 code (result ++ List.replicate (3 + v) 0) count
      | .repeatZeroLarge =>
        match s1.read 7 with
        | .error e => .error e
        | .ok (v, s2) => decodeTableLoop tbl s2 code (result ++ List.replicate (11 + v) 0) count

/-- Tail of the `decode!` macro: drop the zero lengths, `enumerate` the
survivors (note: the index is the position in the *filtered* sequence) and
build the table. -/
def buildFromRaw {S : Type} (raw : List Nat) (f : Nat → S) : Option (HuffmanTable S) :=
  HuffmanTable.from_lengths
    (((raw.filter (fun l => l != 0)).enum).map (fun p => (f p.1, p.2)))

/-- `read_dynamic_tables`: header, then `HLIT` decoding commands for the
lit/len table and `HDIST` decoding commands for the distance table. -/
def read_dynamic_tables (inner : BitRead) :
    RResult ((HuffmanTable LitLenSymbol × HuffmanTable Nat) × BitRead) :=
  match readDynamicHeader inner with
  | .error e => .error e
  | .ok ((hlit, hdist, tbl), s1) =>
    match decodeTableLoop tbl s1 none [] hlit with
    | .error e => .error e
    | .ok (litRaw, s2) =>
      match buildFromRaw litRaw litLenMapSym with
      | none => .error .panicked
      | some lit =>
        match decodeTableLoop tbl s2 none [] hdist with
        | .error e => .error e
        | .ok (distRaw, s3) =>
          match buildFromRaw distRaw (fun n => n) with
          | none => .error .panicked
          | some dist => .ok ((lit, dist), s3)

/-- `CompressedBlockReader::from_dynamic_tables`. -/
def from_dynamic_tables (inner : BitRead) : RResult CompressedBlockReader :=
  match read_dynamic_tables inner with
  | .error e => .error e
  | .ok ((lit, dist), s) => .ok ⟨s, false, lit, dist⟩

/-- Observation helper: run the same steps as `read_dynamic_tables` on a
byte stream but report `(HLIT, HDIST, |lit lengths decoded|, |dist lengths
decoded|)`, i.e. the sizes of the two raw code-length vectors the decoding
loops produce. -/
def dynamicTablesTrace (input : List Nat) : RResult (Nat × Nat × Nat × Nat) :=
  match readDynamicHeader (BitRead.new input) with
  | .error e => .error e
  | .ok ((hlit, hdist, tbl), s1) =>
    match decodeTableLoop tbl s1 none [] hlit with
    | .error e => .error e
    | .ok (litRaw, s2) =>
      match buildFromRaw litRaw litLenMapSym with
      | none => .error .panicked
      | some _ =>
        match decodeTableLoop tbl s2 none [] hdist with
        | .error e => .error e
        | .ok (distRaw, _) => .ok (hlit, hdist, litRaw.length, distRaw.length)

/-! ## `src/lib.rs`, `src/inflate.rs`, `src/zlib_decoder.rs`, `src/adler32.rs` -/

/-- `read_all` from `src/lib.rs`: fill an `n`-byte buffer from the source;
a zero-length read before it is full is `InvalidInput("Unexpected EOF")`.
Over a cursor source this reads `min(n, available)` at once, so it succeeds
exactly when `n` bytes are available. -/
def read_all (reader : List Nat) (n : Nat) : RResult (List Nat × List Nat) :=
  if n ≤ reader.length then .ok (reader.take n, reader.drop n)
  else .error (.invalidInput "Unexpected EOF")

/-- `InflaterState` from `src/inflate.rs`. -/
inductive InflaterState where
  | beforeBlockStart (data : BitRead)
  | uncompressedData (data : List Nat) (len : Nat) (last_block : Bool)
  | compressedData (data : CompressedBlockReader) (last_block : Bool)
  | eofReached (data : List Nat)

/-- `Inflater`: history of all bytes produced (`output_cache`) plus the
current state; `state = none` is the poisoned decoder. -/
structure Inflater where
  output_cache : List Nat
  state : Option InflaterState

/-- `Inflater::new`. -/
def Inflater.new (inner : List Nat) : Inflater :=
  ⟨[], some (.beforeBlockStart (BitRead.new inner))⟩

/-- `consume_block_start`: read `bfinal` and the 2-bit block type, then
build the next state (dynamic tables / fixed tables / stored-block header
with its `LEN`/`NLEN` check / reserved type). -/
def consume_block_start (bits : BitRead) : RResult InflaterState :=
  match bits.read 1 with
  | .error e => .error e
  | .ok (b1, s1) =>
    let bfinal := b1 != 0
    match s1.read 2 with
    | .error e => .error e
    | .ok (btype, s2) =>
      match btype with
      | 2 =>
        match from_dynamic_tables s2 with
        | .error e => .error e
        | .ok r => .ok (.compressedData r bfinal)
      | 1 =>
        match from_fixed_tables s2 with
        | none => .error .panicked
        | some r => .ok (.compressedData r bfinal)
      | 0 =>
        let inner := s2.byte_align_unwrap
        match read_all inner 4 with
        | .error e => .error e
        | .ok (header, inner2) =>
          let len := ((header.getD 1 0) <<< 8) ||| header.getD 0 0
          let nlen := ((header.getD 3 0) <<< 8) ||| header.getD 2 0
          if nlen ≠ (len ^^^ 65535) then
            .error (.invalidInput "Failed to match nlen and len")
          else
            .ok (.uncompressedData inner2 len bfinal)
      | 3 => .error (.invalidInput "Reserved block type 0b11")
      | _ => .error .panicked

/-- `<Inflater as Read>::read`: take the state, handle it, and on the
recursive arms (`BeforeBlockStart`, end of a compressed block) call itself
again.  Returns the bytes written into `buf` together with the updated
inflater; every error path leaves `state = none` (poisoned).  The fuel only
bounds Lean recursion: each recursive call consumed input, so any fuel
larger than the input length plus the block count is enough. -/
def Inflater.read (fuel : Nat) (inf : Inflater) (buf_len : Nat) :
    RResult (List Nat) × Inflater :=
  match fuel with
  | 0 => (.error .panicked, ⟨inf.output_cache, none⟩)
  | fuel + 1 =>
    match inf.state with
    | none =>
      (.error (.invalidInput "I/O errors in the inflater are unrecoverable"),
        ⟨inf.output_cache, none⟩)
    | some (.beforeBlockStart data) =>
      match consume_block_start data with
      | .error e => (.error e, ⟨inf.output_cache, none⟩)
      | .ok st => Inflater.read fuel ⟨inf.output_cache, some st⟩ buf_len
    | some (.uncompressedData data len last_block) =>
      if len = 0 then (.error .panicked, ⟨inf.output_cache, none⟩)
      else
        let requested := min buf_len len
        let result := min requested data.length
        let bytes := data.take result
        let data2 := data.drop result
        let cache := inf.output_cache ++ bytes
        if result = 0 then
          (.error (.invalidInput "Unexpected EOF inside uncompressed block"), ⟨cache, none⟩)
        else if result = len then
          if last_block then (.ok bytes, ⟨cache, some (.eofReached data2)⟩)
          else (.ok bytes, ⟨cache, some (.beforeBlockStart (BitRead.new data2))⟩)
        else
          (.ok bytes, ⟨cache, some (.uncompressedData data2 (len - result) last_block)⟩)
    | some (.compressedData block last_block) =>
      match readContextRead block inf.output_cache buf_len with
      | .error e => (.error e, ⟨inf.output_cache, none⟩)
      | .ok (bytes, block2) =>
        let cache := inf.output_cache ++ bytes
        if bytes.length = 0 then
          let st :=
            if last_block then InflaterState.eofReached block2.data.byte_align_unwrap
            else InflaterState.beforeBlockStart block2.data
          Inflater.read fuel ⟨cache, some st⟩ buf_len
        else (.ok bytes, ⟨cache, some (.compressedData block2 last_block)⟩)
    | some (.eofReached data) => (.ok [], ⟨inf.output_cache, some (.eofReached data)⟩)

/-- `ZlibDecoderState` from `src/zlib_decoder.rs`.  Note the `Checksum` arm
carries nothing: the reader (inside the inflater) is dropped on entry. -/
inductive ZlibDecoderState where
  | start (reader : List Nat)
  | compressedData (reader : Inflater)
  | checksum

/-- `ZlibDecoder`; `state = none` is the poisoned decoder. -/
structure ZlibDecoder where
  state : Option ZlibDecoderState

/-- `ZlibDecoder::new`. -/
def ZlibDecoder.new (reader : List Nat) : ZlibDecoder := ⟨some (.start reader)⟩

/-- `consume_zlib_header`: two header bytes, the CM / CINFO / FCHECK checks,
and when the `FDICT` bit (`0x20`) is set, four more bytes of dictionary ID
that are read and then ignored. -/
def consume_zlib_header (reader : List Nat) : RResult (List Nat) :=
  match read_all reader 2 with
  | .error e => .error e
  | .ok (header, r1) =>
    let cmf := header.getD 0 0
    let flg := header.getD 1 0
    if cmf &&& 15 ≠ 8 then
      .error (.invalidInput "Unsupported zlib compression method")
    else if (cmf >>> 4) &&& 15 ≠ 7 then
      .error (.invalidInput "Unsupported value for CInfo in zlib header")
    else if (cmf * 256 + flg) % 31 ≠ 0 then
      .error (.invalidInput "Wrong value for zlib header checksum")
    else if flg &&& 32 ≠ 0 then
      match read_all r1 4 with
      | .error e => .error e
      | .ok (_, r2) => .ok r2
    else .ok r1

/-- `<ZlibDecoder as Read>::read`.  The `Checksum` arm is
`// FIXME: check checksum` followed by `Ok(0)`: it reads no trailer,
compares nothing, and — having `take`n the state without storing a new
one — leaves the decoder poisoned.  The fuel argument only bounds the
`self.read(buf)` recursion for Lean. -/
def ZlibDecoder.read (fuel : Nat) (d : ZlibDecoder) (buf_len : Nat) :
    RResult (List Nat) × ZlibDecoder :=
  match fuel with
  | 0 => (.error .panicked, ⟨none⟩)
  | fuel + 1 =>
    match d.state with
    | none => (.error (.invalidInput "I/O errors in the inflater are unrecoverable"), ⟨none⟩)
    | some (.start reader) =>
      match consume_zlib_header reader with
      | .error e => (.error e, ⟨none⟩)
      | .ok r1 =>
        ZlibDecoder.read fuel ⟨some (.compressedData (Inflater.new r1))⟩ buf_len
    | some (.compressedData reader) =>
      match Inflater.read (fuel + 1) reader buf_len with
      | (.error e, _) => (.error e, ⟨none⟩)
      | (.ok bytes, reader2) =>
        if bytes.length = 0 then
          ZlibDecoder.read fuel ⟨some .checksum⟩ buf_len
        else (.ok bytes, ⟨some (.compressedData reader2)⟩)
    | some .checksum => (.ok [], ⟨none⟩)

/-- `Adler32` state from `src/adler32.rs`. -/
structure Adler32 where
  s1 : Nat
  s2 : Nat
  deriving Repr, DecidableEq

/-- `Adler32::new`. -/
def Adler32.new : Adler32 := ⟨1, 0⟩

/-- `Adler32::feed`: per byte, `s1 += byte; s2 += s1;` then both reduced
mod 65521 (the `u32` additions cannot wrap at these magnitudes). -/
def Adler32.feed (a : Adler32) (buf : List Nat) : Adler32 :=
  buf.foldl (fun a byte => ⟨(a.s1 + byte) % 65521, (a.s1 + byte + a.s2) % 65521⟩) a

/-- `Adler32::checksum`: `(s2 << 16) | s1`. -/
def Adler32.checksum (a : Adler32) : Nat := (a.s2 <<< 16) ||| a.s1

/-! ## Concrete streams used by the code-bug evaluations -/

/-- A zlib container holding the stored-block `"hello"` stream of the
crate's own tests (`CMF = 0x78`, `FLG = 0x01`) followed by the deliberately
wrong trailer `DE AD BE EF` (the Adler-32 of `"hello"` is `0x062C0215`). -/
def storedHelloStream : List Nat :=
  [120, 1, 1, 5, 0, 250, 255, 104, 101, 108, 108, 111, 222, 173, 190, 239]

/-- A dynamic-block prelude: `HLIT = 257`, `HDIST = 1`, `HCLEN = 5`, meta
lengths `{0 ↦ 1, 8 ↦ 2, 18 ↦ 2}`, then as lit/len commands one explicit
length 8, one `RepeatZeroLarge` with extra bits 0 (11 zeros) and 255
explicit zeros, and as distance command one explicit length 8. -/
def dynHeaderStream : List Nat :=
  [0, 4, 160, 168, 1] ++ List.replicate 31 0 ++ [128, 0]

theorem toBits_length (m d : Nat) : (toBits m d).length = m := by
  induction m generalizing d with
  | zero => rfl
  | succ m ih => simp [toBits, ih]

theorem take_toBits {n m : Nat} (h : n ≤ m) (d : Nat) :
    (toBits m d).take n = toBits n d := by
  induction n generalizing m d with
  | zero => simp [toBits]
  | succ n ih =>
    cases m with
    | zero => omega
    | succ m => simp [toBits, List.take_succ_cons, ih (Nat.le_of_succ_le_succ h)]

theorem ofBits_toBits (m d : Nat) : ofBits (toBits m d) = d % 2 ^ m := by
  induction m generalizing d with
  | zero => simp [toBits, ofBits, Nat.mod_one]
  | succ m ih =>
    have hd := Nat.div_add_mod d 2
    have h1 : (2 * (d / 2)) % 2 ^ (m + 1) = 2 * (d / 2 % 2 ^ m) := by
      rw [Nat.pow_succ, Nat.mul_comm (2 ^ m) 2, Nat.mul_mod_mul_left]
    have h2 : 2 * (d / 2 % 2 ^ m) + d % 2 < 2 ^ (m + 1) := by
      have := Nat.mod_lt (d / 2) (y := 2 ^ m) (Nat.pos_pow_of_pos m (by omega))
      have := Nat.mod_lt d (y := 2) (by omega)
      rw [Nat.pow_succ]; omega
    calc ofBits (toBits (m + 1) d)
        = d % 2 + 2 * (d / 2 % 2 ^ m) := by simp [toBits, ofBits, ih]
      _ = (2 * (d / 2) % 2 ^ (m + 1) + d % 2 % 2 ^ (m + 1)) % 2 ^ (m + 1) := by
          rw [h1, Nat.mod_eq_of_lt (a := d % 2) (by
            have := Nat.mod_lt d (y := 2) (by omega)
            have : (2:Nat) ≤ 2 ^ (m + 1) := by
              have := Nat.one_le_two_pow (n := m); rw [Nat.pow_succ]; omega
            omega), Nat.mod_eq_of_lt h2, Nat.add_comm]
      _ = (2 * (d / 2) + d % 2) % 2 ^ (m + 1) := by rw [← Nat.add_mod]
      _ = d % 2 ^ (m + 1) := by rw [hd]

theorem toBits_append {a : Nat} (b : Nat) {x : Nat} (y : Nat) (hx : x < 2 ^ a) :
    toBits (a + b) (x + y * 2 ^ a) = toBits a x ++ toBits b y := by
  induction a generalizing x with
  | zero =>
    have : x = 0 := by omega
    simp [toBits, this]
  | succ a ih =>
    have hrw : y * 2 ^ (a + 1) = (y * 2 ^ a) * 2 := by rw [Nat.pow_succ]; ring
    have hmod : (x + y * 2 ^ (a + 1)) % 2 = x % 2 := by
      rw [hrw, Nat.add_mul_mod_self_right]
    have hdiv : (x + y * 2 ^ (a + 1)) / 2 = x / 2 + y * 2 ^ a := by
      rw [hrw, Nat.add_mul_div_right x (y * 2 ^ a) (by omega)]
    have hx2 : x / 2 < 2 ^ a := by
      rw [Nat.pow_succ] at hx
      omega
    have hab : a + 1 + b = (a + b) + 1 := by omega
    rw [hab]
    simp only [toBits, hmod, hdiv, ih hx2, List.cons_append]

theorem lor_shiftLeft_eq_add {a : Nat} (b k : Nat) (h : a < 2 ^ k) :
    a ||| (b <<< k) = a + b * 2 ^ k := by
  rw [Nat.shiftLeft_eq]
  apply Nat.eq_of_testBit_eq
  intro i
  rw [Nat.testBit_lor]
  have h2 : a + b * 2 ^ k = 2 ^ k * b + a := by ring
  rw [h2, Nat.testBit_mul_pow_two_add _ h]
  have h3 : b * 2 ^ k = 2 ^ k * b := by ring
  rw [h3, Nat.testBit_mul_pow_two]
  by_cases hik : i < k
  · have : ¬ (k ≤ i) := by omega
    simp [hik, this]
  · have ha : a.testBit i = false :=
      Nat.testBit_lt_two_pow (Nat.lt_of_lt_of_le h (Nat.pow_le_pow_right (by omega) (by omega)))
    simp [hik, ha, show k ≤ i by omega]

theorem bitSeq_cons (B : Nat) (rest : List Nat) (data bits : Nat) :
    bitSeq ⟨B :: rest, data, bits⟩ =
      toBits bits data ++ toBits 8 B ++ (List.foldr (fun b acc => toBits 8 b ++ acc) [] rest) := by
  simp [bitSeq, List.append_assoc]

/-- Claim C6: for every well-formed bit-reader state (at most 7 cached bits,
cache clean above its valid bits, byte source delivering bytes) and every
`n ∈ 0..=8` with enough input available, `read(n)` succeeds and returns the
integer whose bit `i` is the `(i+1)`-th bit of the stream (bytes supplying
their bits least-significant first), i.e. the value of the first `n` bits of
`bitSeq`. -/
theorem claim_c6_bitread_read_lsb_first (s : BitRead) (n : Nat)
    (hbits : s.bits ≤ 7) (hdata : s.data < 2 ^ s.bits)
    (hbytes : ∀ b ∈ s.input, b < 256) (hn : n ≤ 8)
    (havail : s.bits < n → s.input ≠ []) :
    ∃ s', s.read n = .ok (ofBits ((bitSeq s).take n), s') := by
  by_cases hc : s.bits < n
  · obtain ⟨B, rest, hin⟩ : ∃ B rest, s.input = B :: rest := by
      cases hi : s.input with
      | nil => exact absurd hi (havail hc)
      | cons B rest => exact ⟨B, rest, rfl⟩
    have hB : B < 256 := hbytes B (by rw [hin]; exact List.mem_cons_self B rest)
    have hor : s.data ||| (B <<< s.bits) = s.data + B * 2 ^ s.bits :=
      lor_shiftLeft_eq_add B s.bits hdata
    have hpow : (2:Nat) ^ s.bits ≤ 2 ^ 7 := Nat.pow_le_pow_right (by omega) hbits
    have hmul : B * 2 ^ s.bits ≤ 255 * 2 ^ 7 :=
      Nat.mul_le_mul (by omega) hpow
    have hlt : s.data + B * 2 ^ s.bits < 65536 := by
      have : (2:Nat) ^ 7 = 128 := by norm_num
      omega
    have hmod : (s.data ||| (B <<< s.bits)) % 65536 = s.data + B * 2 ^ s.bits := by
      rw [hor]; exact Nat.mod_eq_of_lt hlt
    refine ⟨⟨rest, (s.data + B * 2 ^ s.bits) >>> n, s.bits + 8 - n⟩, ?_⟩
    have hs : s = ⟨B :: rest, s.data, s.bits⟩ := by
      cases s; simp_all
    rw [hs]
    simp only [BitRead.read, BitRead.read_from_cache]
    rw [if_pos hn, if_pos hc, if_pos (show s.bits ≤ 8 by omega)]
    simp only [hmod]
    rw [if_pos (show n ≤ s.bits + 8 by omega)]
    congr 1
    have hseq : bitSeq ⟨B :: rest, s.data, s.bits⟩ =
        toBits (s.bits + 8) (s.data + B * 2 ^ s.bits) ++
          (List.foldr (fun b acc => toBits 8 b ++ acc) [] rest) := by
      rw [bitSeq_cons, toBits_append 8 B hdata]
    rw [hseq, List.take_append_of_le_length (by rw [toBits_length]; omega),
      take_toBits (show n ≤ s.bits + 8 by omega), ofBits_toBits,
      Nat.one_shiftLeft, Nat.and_pow_two_sub_one_eq_mod]
  · refine ⟨⟨s.input, s.data >>> n, s.bits - n⟩, ?_⟩
    simp only [BitRead.read, BitRead.read_from_cache]
    rw [if_pos hn, if_neg hc, if_pos (show n ≤ s.bits by omega)]
    congr 1
    have hseq : (bitSeq s).take n = toBits n s.data := by
      rw [bitSeq, List.take_append_of_le_length (by rw [toBits_length]; omega),
        take_toBits (show n ≤ s.bits by omega)]
    rw [hseq, ofBits_toBits, Nat.one_shiftLeft, Nat.and_pow_two_sub_one_eq_mod]

/-- Witness for C6 at the concrete state of the crate's own bit-reader test:
source byte `0b01001110`, empty cache, `n = 2`. -/
theorem claim_c6_witness :
    ((BitRead.mk [78] 0 0).bits ≤ 7 ∧ (BitRead.mk [78] 0 0).data < 2 ^ (BitRead.mk [78] 0 0).bits) ∧
    ∃ s', (BitRead.mk [78] 0 0).read 2 =
      .ok (ofBits ((bitSeq (BitRead.mk [78] 0 0)).take 2), s') :=
  ⟨⟨by decide, by decide⟩,
    claim_c6_bitread_read_lsb_first (BitRead.mk [78] 0 0) 2 (by decide) (by decide)
      (by decide) (by decide) (by decide)⟩

/-- Claim C10: `read(0)` always returns `Ok(0)` and leaves the bit reader
entirely unchanged: no byte is consumed and the cache keeps its value. -/
theorem claim_c10_read_zero_is_identity (s : BitRead) : s.read 0 = .ok (0, s) := by
  simp [BitRead.read, BitRead.read_from_cache, Nat.shiftLeft_zero, Nat.shiftRight_zero]

theorem tally_some {S : Type} (L : List (S × Nat)) (h : ∀ p ∈ L, p.2 < 10) :
    ∀ bl, ∃ bl', tally L bl = some bl' := by
  induction L with
  | nil => exact fun bl => ⟨bl, rfl⟩
  | cons hd tl ih =>
    intro bl
    have hhd : hd.2 < 10 := h hd (List.mem_cons_self hd tl)
    obtain ⟨bl', hbl'⟩ := ih (fun p hp => h p (List.mem_cons_of_mem _ hp))
      (bl.set hd.2 (bl.getD hd.2 0 + 1))
    cases hd with
    | mk s len => exact ⟨bl', by simpa [tally, hhd] using hbl'⟩

theorem tally_length {S : Type} :
    ∀ (L : List (S × Nat)) (bl bl' : List Nat),
      tally L bl = some bl' → bl'.length = bl.length := by
  intro L
  induction L with
  | nil => intro bl bl' h; simp [tally] at h; simp [h]
  | cons hd tl ih =>
    intro bl bl' h
    cases hd with
    | mk s len =>
      simp only [tally] at h
      split at h
      · rw [ih _ _ h, List.length_set]
      · exact absurd h (by simp)

theorem tally_getD_zero {S : Type} :
    ∀ (L : List (S × Nat)), (∀ p ∈ L, 1 ≤ p.2) →
      ∀ bl bl', tally L bl = some bl' → bl'.getD 0 0 = bl.getD 0 0 := by
  intro L
  induction L with
  | nil => intro _ bl bl' h; simp [tally] at h; simp [h]
  | cons hd tl ih =>
    intro hall bl bl' h
    cases hd with
    | mk s len =>
      have h1 : 1 ≤ len := hall (s, len) (List.mem_cons_self _ _)
      simp only [tally] at h
      split at h
      · rw [ih (fun p hp => hall p (List.mem_cons_of_mem _ hp)) _ _ h]
        rcases bl with _ | ⟨b0, btl⟩
        · simp
        · cases len with
          | zero => omega
          | succ m => simp [List.set]
      · exact absurd h (by simp)

theorem sum_set_getD_succ :
    ∀ (l : List Nat) (i : Nat), i < l.length →
      (l.set i (l.getD i 0 + 1)).sum = l.sum + 1 := by
  intro l
  induction l with
  | nil => intro i h; simp at h
  | cons x xs ih =>
    intro i h
    cases i with
    | zero =>
      simp only [List.set_cons_zero, List.getD_cons_zero, List.sum_cons]
      omega
    | succ i =>
      have hih := ih i (by simpa using h)
      simp only [List.set_cons_succ, List.getD_cons_succ, List.sum_cons, hih]
      omega

theorem tally_sum {S : Type} :
    ∀ (L : List (S × Nat)), (∀ p ∈ L, p.2 < 10) →
      ∀ (bl bl' : List Nat), bl.length = 10 → tally L bl = some bl' →
      bl'.sum = bl.sum + L.length := by
  intro L
  induction L with
  | nil => intro _ bl bl' _ h; simp [tally] at h; simp [h]
  | cons hd tl ih =>
    intro hall bl bl' hlen h
    cases hd with
    | mk s len =>
      have hl10 : len < 10 := hall (s, len) (List.mem_cons_self _ _)
      simp only [tally] at h
      rw [if_pos hl10] at h
      have := ih (fun p hp => hall p (List.mem_cons_of_mem _ hp))
        (bl.set len (bl.getD len 0 + 1)) bl' (by simp [hlen]) h
      rw [this, sum_set_getD_succ bl len (by omega)]
      simp
      omega

theorem position_some_of_sum_ne (l : List Nat) (h : l.sum ≠ 0) :
    ∃ i, position (fun e => e != 0) l = some i := by
  induction l with
  | nil => simp at h
  | cons x xs ih =>
    by_cases hx : x = 0
    · subst hx
      have hs : xs.sum ≠ 0 := by simpa using h
      obtain ⟨i, hi⟩ := ih hs
      exact ⟨i + 1, by simp [position, hi]⟩
    · exact ⟨0, by simp [position, hx]⟩

theorem position_head_zero_ge_one (rest : List Nat) (m : Nat)
    (h : position (fun e => e != 0) (0 :: rest) = some m) : 1 ≤ m := by
  simp [position] at h
  obtain ⟨i, -, hi⟩ := h
  omega

theorem buildNextCode_length (bl : List Nat) : (buildNextCode bl).length = 10 := by
  have key : ∀ (xs : List Nat) (c : Nat) (l : List Nat),
      ((xs.foldl (fun acc bit =>
        let code := (acc.1 + bl.getD (bit - 1) 0) <<< 1
        (code, acc.2 ++ [code])) (c, l)).2).length = l.length + xs.length := by
    intro xs
    induction xs with
    | nil => simp
    | cons x xs ih =>
      intro c l
      simp only [List.foldl_cons, ih]
      simp
      omega
  simpa [buildNextCode] using key (List.range' 1 9) 0 [0]

theorem assign_some {S : Type} :
    ∀ (L : List (S × Nat)) (next_code : List Nat) (elements : List (Option (Nat × S))),
      next_code.length = 10 → (∀ p ∈ L, 1 ≤ p.2 ∧ p.2 ≤ 9) →
      ∃ e', assign next_code elements L = some e' := by
  intro L
  induction L with
  | nil => exact fun nc el _ _ => ⟨el, rfl⟩
  | cons hd tl ih =>
    intro nc el hnc hall
    cases hd with
    | mk sym len =>
      obtain ⟨h1, h9⟩ := hall (sym, len) (List.mem_cons_self _ _)
      have hlen0 : ¬ (len = 0) := by omega
      have hlt : len < nc.length := by omega
      have hcode : ∀ (code : Nat),
          code < (if el.length ≤ code then
            el ++ List.replicate (code + 1 - el.length) none else el).length := by
        intro code
        by_cases hc : el.length ≤ code
        · simp only [if_pos hc, List.length_append, List.length_replicate]
          omega
        · simp only [if_neg hc]
          omega
      obtain ⟨e', he'⟩ := ih (nc.set len (nc.getD len 0 + 1))
        ((if el.length ≤ nc.getD len 0 then
            el ++ List.replicate (nc.getD len 0 + 1 - el.length) none else el).set
          (nc.getD len 0) (some (len, sym)))
        (by simp [hnc]) (fun p hp => hall p (List.mem_cons_of_mem _ hp))
      refine ⟨e', ?_⟩
      simp only [assign, if_neg hlen0, if_pos hlt, if_pos (hcode (nc.getD len 0))]
      exact he'

/-- Counterexample to claim C3 as stated: `(0, 10)` is a non-empty sequence
whose single length lies in `1..=15`, yet `from_lengths` panics (the tally
array has only 10 slots), modelled as `none`. -/
theorem claim_c3_counterexample :
    HuffmanTable.from_lengths [((0 : Nat), 10)] = none ∧ 1 ≤ 10 ∧ 10 ≤ 15 :=
  ⟨rfl, by omega, by omega⟩

/-- Claim C3 (amended): for every non-empty sequence of `(symbol, length)`
pairs in which every length lies in `1..=9`, `HuffmanTable::from_lengths`
succeeds and builds a table without panicking; lengths outside `1..=9` are
rejected (0 by `assert!`, 10 and above by the 10-slot tally array). -/
theorem claim_c3_from_lengths_total {S : Type} (lengths : List (S × Nat))
    (hne : lengths ≠ []) (hb : ∀ p ∈ lengths, 1 ≤ p.2 ∧ p.2 ≤ 9) :
    ∃ t, HuffmanTable.from_lengths lengths = some t := by
  have hempty : lengths.isEmpty = false := by
    cases lengths with
    | nil => exact absurd rfl hne
    | cons a l => rfl
  obtain ⟨bl, hbl⟩ := tally_some lengths
    (fun p hp => by have := hb p hp; omega) (List.replicate 10 0)
  have hlen10 : bl.length = 10 := by
    rw [tally_length _ _ _ hbl]; simp
  have hsum : bl.sum = lengths.length := by
    have := tally_sum lengths (fun p hp => by have := hb p hp; omega)
      (List.replicate 10 0) bl (by simp) hbl
    simpa using this
  have hlpos : lengths.length ≠ 0 := by
    cases lengths with
    | nil => exact absurd rfl hne
    | cons a l => simp
  obtain ⟨m, hm⟩ := position_some_of_sum_ne bl (by omega)
  have hhead : bl.getD 0 0 = 0 := by
    rw [tally_getD_zero lengths (fun p hp => (hb p hp).1) _ _ hbl]
    simp
  have hm1 : 1 ≤ m := by
    rcases bl with _ | ⟨b0, btl⟩
    · simp at hlen10
    · have hb0 : b0 = 0 := by simpa using hhead
      subst hb0
      exact position_head_zero_ge_one btl m hm
  obtain ⟨e', he'⟩ := assign_some lengths (buildNextCode bl) []
    (buildNextCode_length bl) hb
  refine ⟨⟨e', m⟩, ?_⟩
  simp only [HuffmanTable.from_lengths, hempty, Bool.false_eq_true, if_false, hbl, hm,
    if_pos hm1, he']

/-- Witness for the amended C3 at the concrete input `[(0, 1)]`. -/
theorem claim_c3_witness :
    (([((0 : Nat), 1)] : List (Nat × Nat)) ≠ []) ∧
    ∃ t, HuffmanTable.from_lengths [((0 : Nat), 1)] = some t :=
  ⟨by simp,
    claim_c3_from_lengths_total [((0 : Nat), 1)] (by simp) (by simp)⟩

/-- Claim C1 (code bug): for the back-reference `length = 258, distance = 1`
with one byte of history — the RLE case the claim singles out — `read_behind`
emits a single byte, not 258: the copy iterates over
`chain(history, already-written).skip(..).take(length)`, which contains only
`distance` bytes and never sees the bytes the copy itself produces, so for
`distance < length` only `distance` bytes are emitted (`// FIXME: not
totally implemented, there's a repeating thingy`). -/
theorem claim_c1_overlap_copy_truncated :
    read_behind 258 1 [] [65] 300 = .ok ([65], []) ∧ ([65] : List Nat).length ≠ 258 :=
  ⟨rfl, by decide⟩

set_option maxRecDepth 100000 in
/-- Claim C2 (code bug): on `dynHeaderStream` the decoder reads
`HLIT = 257` and `HDIST = 1` but the two `decode!` loops count *commands*,
not emitted lengths (and cannot straddle the boundary): the lit/len loop
runs 257 commands of which one is `RepeatZeroLarge`, producing 267 code
lengths, so the total count is `267 + 1 = 268 ≠ 257 + 1 = HLIT + HDIST`. -/
theorem claim_c2_dynamic_tables_count_commands :
    dynamicTablesTrace dynHeaderStream = .ok (257, 1, 267, 1) ∧ 267 + 1 ≠ 257 + 1 :=
  ⟨rfl, by omega⟩

/-- Claim C4 (code bug): on `storedHelloStream` — a valid container whose
4 trailer bytes `DE AD BE EF` do *not* match the Adler-32 of the output
`"hello"` — the decoder surfaces `"hello"` and then reports a clean EOF
(`Ok(0)`): the `Checksum` arm is `// FIXME: check checksum` and never reads
or compares the trailer. -/
theorem claim_c4_checksum_never_verified :
    ((ZlibDecoder.read 8 (ZlibDecoder.new storedHelloStream) 100).1 =
        .ok [104, 101, 108, 108, 111] ∧
      (ZlibDecoder.read 8 (ZlibDecoder.read 8
        (ZlibDecoder.new storedHelloStream) 100).2 100).1 = .ok []) ∧
    (Adler32.new.feed [104, 101, 108, 108, 111]).checksum ≠
      222 * 16777216 + 173 * 65536 + 190 * 256 + 239 :=
  ⟨⟨rfl, rfl⟩, by decide⟩

/-- Claim C5 (code bug): after the same valid stream reaches its clean
`Ok(0)` (second call below), the *next* read does not return 0 again: the
`Checksum` arm never stores a state back, so the decoder is poisoned and
the third call fails with `InvalidInput`. -/
theorem claim_c5_read_after_clean_eof_fails :
    (ZlibDecoder.read 8 (ZlibDecoder.read 8
        (ZlibDecoder.new storedHelloStream) 100).2 100).1 = .ok [] ∧
    (ZlibDecoder.read 8 (ZlibDecoder.read 8 (ZlibDecoder.read 8
        (ZlibDecoder.new storedHelloStream) 100).2 100).2 100).1 =
      .error (.invalidInput "I/O errors in the inflater are unrecoverable") :=
  ⟨rfl, rfl⟩

/-- Claim C7 (code bug): the deflate stream `01 00 00 FF FF` is a valid
empty stored block (`LEN = 0`, `NLEN = FFFF`, `bfinal = 1`), but instead of
emitting zero bytes and reaching EOF the inflater trips its own
`assert!(len != 0)` when it re-enters `read` in the
`UncompressedData { len: 0 }` state. -/
theorem claim_c7_empty_stored_block_panics :
    (Inflater.read 4 (Inflater.new [1, 0, 0, 255, 255]) 100).1 = .error .panicked :=
  rfl

/-- Claim C8 (code bug): a back-reference whose distance (5) exceeds the
available history (1 byte) makes `read_behind` compute the iterator skip by
the `usize` subtraction `history - distance` (`// FIXME: check overflow`):
an underflow panic in a checked build (in release the skip wraps and zero
bytes are copied) — never the `InvalidInput` error the claim requires. -/
theorem claim_c8_excess_distance_not_an_error :
    read_behind 3 5 [] [65] 10 = .error .panicked :=
  rfl

/-- Claim C9: with `CMF = 0x78` and any `FLG` byte that passes the checksum
check and has the `FDICT` bit (`0x20`) set, `consume_zlib_header` reads and
discards exactly the next 4 bytes — whatever their values — and succeeds:
the dictionary ID never influences header acceptance. -/
theorem claim_c9_fdict_consumes_four_bytes (flg d1 d2 d3 d4 : Nat) (rest : List Nat)
    (hflg : flg < 256) (hchk : (120 * 256 + flg) % 31 = 0) (hdict : flg &&& 32 ≠ 0) :
    consume_zlib_header (120 :: flg :: d1 :: d2 :: d3 :: d4 :: rest) = .ok rest := by
  have h2 : read_all (120 :: flg :: d1 :: d2 :: d3 :: d4 :: rest) 2 =
      .ok ([120, flg], d1 :: d2 :: d3 :: d4 :: rest) := by
    simp [read_all]
  have h4 : read_all (d1 :: d2 :: d3 :: d4 :: rest) 4 =
      .ok ([d1, d2, d3, d4], rest) := by
    simp [read_all]
  simp only [consume_zlib_header, h2, h4]
  norm_num [List.getD, hchk, hdict]
  norm_num [show (120 : Nat) &&& 15 = 8 from rfl, show (120 : Nat) >>> 4 &&& 15 = 7 from rfl]

/-- Witness for C9: header `78 20` (FCHECK valid, FDICT set) followed by the
dictionary ID `09 09 09 09` and one payload byte. -/
theorem claim_c9_witness :
    ((120 * 256 + 32) % 31 = 0 ∧ 32 &&& 32 ≠ 0) ∧
    consume_zlib_header [120, 32, 9, 9, 9, 9, 7] = .ok [7] :=
  ⟨⟨by decide, by decide⟩,
    claim_c9_fdict_consumes_four_bytes 32 9 9 9 9 [7] (by decide) (by decide) (by decide)⟩
